import Mathlib

/-!
# The `plugin` handle of gopher-lua-libs (`src/plugin/api.go`)

A shallow embedding of the `luaPlugin` handle, its accessors, the `start`
body and the Lua binding functions, together with an interleaving semantics
whose atomic steps are the mutex-delimited sections of the source.

The Lua evaluator and the Go runtime are external: an engine instance and a
cancel signal are identified by the number the runtime allocated them under,
and the outcome of `DoString` is supplied by the step label.
-/

namespace Plugin

/-! ## Data model -/

/-- Values the binding functions push on the Lua stack. -/
inductive LValue
  | LBool (b : Bool)
  | LString (s : String)
  deriving DecidableEq, Repr

/-- The struct `luaPlugin` (api.go lines 24-31) without its mutex.  A nil
pointer, nil func or nil error is `none`; a Go `error` is represented by the
message its `Error()` method yields. -/
structure luaPlugin where
  state : Option Nat
  cancelFunc : Option Nat
  running : Bool
  error : Option String
  body : String
  deriving DecidableEq, Repr

/-- The part of the Go runtime the handle acts on: how many engine instances
`lua.NewState` has allocated, how many cancellable contexts
`context.WithCancel` has created, the context installed in each instance by
`SetContext` (latest first) and the contexts whose cancel func has fired. -/
structure Runtime where
  states : Nat
  ctxs : Nat
  context : List (Nat × Nat)
  cancelled : List Nat
  deriving DecidableEq, Repr

/-- The context bound to engine instance `st`, if any. -/
def Runtime.contextOf (rt : Runtime) (st : Nat) : Option Nat :=
  rt.context.lookup st

/-- A runtime in which nothing has been allocated yet. -/
def Runtime.empty : Runtime :=
  { states := 0, ctxs := 0, context := [], cancelled := [] }

/-- Ways a step can fail: a nil func is called, a nil instance is
dereferenced, or the step is not the next one of the thread it names. -/
inductive Fault
  | nilCancelFunc
  | nilState
  | notEnabled
  deriving DecidableEq, Repr

/-! ## Accessors (api.go lines 33-57) -/

/-- Lines 33-38. -/
def getError (p : luaPlugin) : Option String :=
  p.error

/-- Lines 40-45. -/
def getRunning (p : luaPlugin) : Bool :=
  p.running

/-- Lines 47-51. -/
def setError (p : luaPlugin) (err : Option String) : luaPlugin :=
  { p with error := err }

/-- Lines 53-57. -/
def setRunning (p : luaPlugin) (val : Bool) : luaPlugin :=
  { p with running := val }

/-! ## `start` (api.go lines 59-87) -/

/-- The section of `start` between `p.Lock()` (line 60) and `p.Unlock()`
(line 82).  The twelve `Preload` calls act on the new instance only and leave
the handle and the bookkeeping of the runtime untouched. -/
def start_locked (p : luaPlugin) (rt : Runtime) : luaPlugin × Runtime :=
  let state := rt.states
  let rt := { rt with states := rt.states + 1 }
  let p := { p with state := some state }
  let p := { p with error := none }
  let p := { p with running := true }
  let ctx := rt.ctxs
  let cancelFunc := rt.ctxs
  let rt := { rt with ctxs := rt.ctxs + 1 }
  let rt :=
    match p.state with
    | some st => { rt with context := (st, ctx) :: rt.context }
    | none => rt
  let p := { p with cancelFunc := some cancelFunc }
  (p, rt)

/-- The whole of `start` run without interference, for an evaluator
`DoString` given as a function of the instance and the body. -/
def start (DoString : Nat → String → Option String) (p : luaPlugin) (rt : Runtime) :
    Except Fault (luaPlugin × Runtime) :=
  let (p, rt) := start_locked p rt
  match p.state with
  | none => .error .nilState
  | some st =>
    let p := setError p (DoString st p.body)
    let p := setRunning p false
    .ok (p, rt)

/-! ## Binding functions (api.go lines 98-141) -/

/-- Lines 99-107: the handle `New` allocates for the string argument `body`. -/
def New (body : String) : luaPlugin :=
  { state := none, cancelFunc := none, running := false, error := none, body := body }

/-- Lines 117-121: the values pushed and the count returned. -/
def IsRunning (p : luaPlugin) : List LValue × Nat :=
  ([LValue.LBool (getRunning p)], 1)

/-- Lines 124-132: the values pushed and the count returned. -/
def Error (p : luaPlugin) : List LValue × Nat :=
  match getError p with
  | none => ([], 0)
  | some msg => ([LValue.LString msg], 1)

/-- Firing a cancel func: the context becomes cancelled; firing it again
changes nothing. -/
def Runtime.cancel (rt : Runtime) (c : Nat) : Runtime :=
  { rt with cancelled := if c ∈ rt.cancelled then rt.cancelled else c :: rt.cancelled }

/-- Lines 135-141: `p.cancelFunc()` under the lock.  Calling a nil func
panics. -/
def Stop (p : luaPlugin) (rt : Runtime) : Except Fault (luaPlugin × Runtime) :=
  match p.cancelFunc with
  | none => .error .nilCancelFunc
  | some c => .ok (p, rt.cancel c)

/-! ## Interleaving semantics -/

/-- Where a goroutine running `start` stands. -/
inductive Pc
  /-- spawned by `go p.start()`, before line 60 -/
  | atLock
  /-- after line 82, before line 85 reads `p.state` -/
  | atDoString
  /-- inside `DoString` on instance `st` -/
  | inDoString (st : Nat)
  /-- `DoString` has returned `r`, before `p.setError(r)` -/
  | atSetError (r : Option String)
  /-- before `p.setRunning(false)` (line 86) -/
  | atSetRunning
  /-- `start` has returned -/
  | done
  deriving DecidableEq, Repr

/-- The handle, the runtime and the goroutines running `start` on the
handle, in spawning order. -/
structure Sys where
  p : luaPlugin
  rt : Runtime
  threads : List Pc
  deriving DecidableEq, Repr

/-- Atomic steps.  `Run`, `IsRunning`, `Error` and `Stop` are calls of the
binding functions by an observer; the others advance goroutine `t`. -/
inductive Action
  | Run
  | lockedSection (t : Nat)
  | callDoString (t : Nat)
  | returnDoString (t : Nat) (r : Option String)
  | setError (t : Nat)
  | setRunning (t : Nat)
  | IsRunning
  | Error
  | Stop
  deriving DecidableEq, Repr

/-- Lines 110-114: `go p.start()` adds a goroutine and returns. -/
def Run (s : Sys) : Sys :=
  { s with threads := s.threads ++ [Pc.atLock] }

/-- One atomic step. -/
def step (s : Sys) : Action → Except Fault Sys
  | .Run => .ok (Run s)
  | .lockedSection t =>
    match s.threads[t]? with
    | some .atLock =>
      .ok { p := (start_locked s.p s.rt).1, rt := (start_locked s.p s.rt).2,
            threads := s.threads.set t .atDoString }
    | _ => .error .notEnabled
  | .callDoString t =>
    match s.threads[t]? with
    | some .atDoString =>
      match s.p.state with
      | some st => .ok { s with threads := s.threads.set t (.inDoString st) }
      | none => .error .nilState
    | _ => .error .notEnabled
  | .returnDoString t r =>
    match s.threads[t]? with
    | some (.inDoString _) => .ok { s with threads := s.threads.set t (.atSetError r) }
    | _ => .error .notEnabled
  | .setError t =>
    match s.threads[t]? with
    | some (.atSetError r) =>
      .ok { s with p := setError s.p r, threads := s.threads.set t .atSetRunning }
    | _ => .error .notEnabled
  | .setRunning t =>
    match s.threads[t]? with
    | some .atSetRunning =>
      .ok { s with p := setRunning s.p false, threads := s.threads.set t .done }
    | _ => .error .notEnabled
  | .IsRunning => .ok s
  | .Error => .ok s
  | .Stop =>
    match Stop s.p s.rt with
    | .ok (p, rt) => .ok { s with p := p, rt := rt }
    | .error e => .error e

/-- Run a schedule from left to right, stopping at the first fault. -/
def exec : Sys → List Action → Except Fault Sys
  | s, [] => .ok s
  | s, a :: acts =>
    match step s a with
    | .ok s1 => exec s1 acts
    | .error e => .error e

/-- The system right after `New(body)`: no goroutine yet. -/
def Sys.New (body : String) (rt : Runtime) : Sys :=
  { p := Plugin.New body, rt := rt, threads := [] }

/-- The outcomes `DoString` returned along a schedule, in order. -/
def outcomes : List Action → List (Option String)
  | [] => []
  | .returnDoString _ r :: acts => r :: outcomes acts
  | _ :: acts => outcomes acts

/-! ## Lock discipline

Each operation as the sequence of mutex operations and field accesses it
performs, in program order. -/

/-- The fields of `luaPlugin`. -/
inductive Field
  | state
  | cancelFunc
  | running
  | error
  | body
  deriving DecidableEq, Repr

/-- A mutex operation or an access to a field of the handle. -/
inductive Op
  | Lock
  | Unlock
  | read (f : Field)
  | write (f : Field)
  deriving DecidableEq, Repr

/-- The fields written after `New`; `body` is not. -/
def Field.isMutable : Field → Bool
  | .body => false
  | _ => true

/-- Lines 33-38 (the deferred `Unlock` runs at return). -/
def getError_ops : List Op := [.Lock, .read .error, .Unlock]

/-- Lines 40-45. -/
def getRunning_ops : List Op := [.Lock, .read .running, .Unlock]

/-- Lines 47-51. -/
def setError_ops : List Op := [.Lock, .write .error, .Unlock]

/-- Lines 53-57. -/
def setRunning_ops : List Op := [.Lock, .write .running, .Unlock]

/-- Lines 59-87: line 60, 76, 77, 78, 80 (`p.state.SetContext`), 81, 82, then
line 85 (`p.state`, `p.body`, `p.setError`) and line 86. -/
def start_ops : List Op :=
  [.Lock, .write .state, .write .error, .write .running, .read .state,
   .write .cancelFunc, .Unlock, .read .state, .read .body]
  ++ setError_ops ++ setRunning_ops

/-- Lines 135-141. -/
def Stop_ops : List Op := [.Lock, .read .cancelFunc, .Unlock]

/-- The accesses to mutable fields made while the mutex is not held, where
`held` tells whether it is held at the start. -/
def unguarded : Bool → List Op → List Op
  | _, [] => []
  | _, .Lock :: ops => unguarded true ops
  | _, .Unlock :: ops => unguarded false ops
  | held, .read f :: ops =>
    if held || !f.isMutable then unguarded held ops else .read f :: unguarded held ops
  | held, .write f :: ops =>
    if held || !f.isMutable then unguarded held ops else .write f :: unguarded held ops

/-! ## Invariants of the interleaving semantics -/

/-- The stored error and the running flag agree, up to the window between the
two write-backs of a goroutine: when an error is stored and the flag is set,
some goroutine stands between its `setError` and its `setRunning(false)`. -/
def Consistent (s : Sys) : Prop :=
  s.p.error ≠ none → s.p.running = true → Pc.atSetRunning ∈ s.threads

/-- How far a goroutine has got. -/
def Pc.rank : Pc → Nat
  | .atLock => 0
  | .atDoString => 1
  | .inDoString _ => 2
  | .atSetError _ => 3
  | .atSetRunning => 4
  | .done => 5

/-- What the handle `p` holds when the only goroutine, spawned on the handle
`p0`, stands at a given point and `DoString` has returned `outs` so far. -/
def SingleAt (p0 : luaPlugin) (outs : List (Option String)) (p : luaPlugin) : Pc → Prop
  | .atLock => p = p0 ∧ outs = []
  | .atDoString => p.running = true ∧ p.error = none ∧ p.body = p0.body ∧ outs = []
  | .inDoString _ => p.running = true ∧ p.error = none ∧ p.body = p0.body ∧ outs = []
  | .atSetError r => p.running = true ∧ p.error = none ∧ p.body = p0.body ∧ outs = [r]
  | .atSetRunning => p.running = true ∧ p.body = p0.body ∧ outs = [p.error]
  | .done => p.running = false ∧ p.body = p0.body ∧ outs = [p.error]

/-- The invariant of a system with exactly one goroutine. -/
def Single (p0 : luaPlugin) (outs : List (Option String)) (s : Sys) : Prop :=
  ∃ pc, s.threads = [pc] ∧ SingleAt p0 outs s.p pc

/-- Every identifier the handle stores was allocated by the runtime. -/
def Sys.wf (s : Sys) : Prop :=
  (∀ c, s.p.cancelFunc = some c → c < s.rt.ctxs) ∧ (∀ i, s.p.state = some i → i < s.rt.states)

/-- The cancel signal `c1` exists and the handle does not store it. -/
def Lost (c1 : Nat) (s : Sys) : Prop :=
  c1 < s.rt.ctxs ∧ s.p.cancelFunc ≠ some c1

/-- No goroutine has entered its locked section and the handle is still as
`New` made it. -/
def Unstarted (body : String) (s : Sys) : Prop :=
  s.p = New body ∧ ∀ pc ∈ s.threads, pc = .atLock

/-! ## Basic facts about steps and schedules -/

theorem exec_append (s : Sys) (xs ys : List Action) :
    exec s (xs ++ ys) =
      match exec s xs with
      | .ok s1 => exec s1 ys
      | .error e => .error e := by
  induction xs generalizing s with
  | nil => rfl
  | cons a xs ih =>
    simp only [List.cons_append, exec]
    cases step s a with
    | ok s1 => exact ih s1
    | error e => rfl

theorem outcomes_append (xs ys : List Action) :
    outcomes (xs ++ ys) = outcomes xs ++ outcomes ys := by
  induction xs with
  | nil => rfl
  | cons a xs ih => cases a <;> simp [outcomes, ih]

/-- What a successful step of goroutine `t` needs and does. -/
theorem step_lockedSection_ok {s s1 : Sys} {t : Nat}
    (h : step s (.lockedSection t) = .ok s1) :
    s.threads[t]? = some .atLock ∧
      s1 = { p := (start_locked s.p s.rt).1, rt := (start_locked s.p s.rt).2,
             threads := s.threads.set t .atDoString } := by
  simp only [step] at h
  split at h
  · rename_i hpc
    exact ⟨hpc, (Except.ok.inj h).symm⟩
  · cases h

theorem step_callDoString_ok {s s1 : Sys} {t : Nat}
    (h : step s (.callDoString t) = .ok s1) :
    s.threads[t]? = some .atDoString ∧
      ∃ st, s.p.state = some st ∧ s1 = { s with threads := s.threads.set t (.inDoString st) } := by
  simp only [step] at h
  split at h
  · rename_i hpc
    split at h
    · rename_i st hst
      exact ⟨hpc, st, hst, (Except.ok.inj h).symm⟩
    · cases h
  · cases h

theorem step_returnDoString_ok {s s1 : Sys} {t : Nat} {r : Option String}
    (h : step s (.returnDoString t r) = .ok s1) :
    (∃ st, s.threads[t]? = some (.inDoString st)) ∧
      s1 = { s with threads := s.threads.set t (.atSetError r) } := by
  simp only [step] at h
  split at h
  · rename_i st hpc
    exact ⟨⟨st, hpc⟩, (Except.ok.inj h).symm⟩
  · cases h

theorem step_setError_ok {s s1 : Sys} {t : Nat}
    (h : step s (.setError t) = .ok s1) :
    ∃ r, s.threads[t]? = some (.atSetError r) ∧
      s1 = { s with p := setError s.p r, threads := s.threads.set t .atSetRunning } := by
  simp only [step] at h
  split at h
  · rename_i r hpc
    exact ⟨r, hpc, (Except.ok.inj h).symm⟩
  · cases h

theorem step_setRunning_ok {s s1 : Sys} {t : Nat}
    (h : step s (.setRunning t) = .ok s1) :
    s.threads[t]? = some .atSetRunning ∧
      s1 = { s with p := setRunning s.p false, threads := s.threads.set t .done } := by
  simp only [step] at h
  split at h
  · rename_i hpc
    exact ⟨hpc, (Except.ok.inj h).symm⟩
  · cases h

theorem step_Stop_ok {s s1 : Sys} (h : step s .Stop = .ok s1) :
    ∃ c, s.p.cancelFunc = some c ∧ s1 = { s with rt := s.rt.cancel c } := by
  simp only [step, Stop] at h
  cases hc : s.p.cancelFunc with
  | none => simp [hc] at h
  | some c =>
    simp only [hc] at h
    exact ⟨c, rfl, (Except.ok.inj h).symm⟩

/-! ## Goroutine lists -/

theorem mem_set_self {l : List Pc} {t : Nat} {y z : Pc} (h : l[t]? = some y) :
    z ∈ l.set t z := by
  induction l generalizing t with
  | nil => simp at h
  | cons a l ih =>
    cases t with
    | zero => simp
    | succ t =>
      simp only [List.getElem?_cons_succ] at h
      simp only [List.set_cons_succ, List.mem_cons]
      exact Or.inr (ih h)

theorem mem_set_of_ne {l : List Pc} {t : Nat} {x y z : Pc} (hx : x ∈ l)
    (h : l[t]? = some y) (hne : y ≠ x) : x ∈ l.set t z := by
  induction l generalizing t with
  | nil => simp at h
  | cons a l ih =>
    cases t with
    | zero =>
      simp only [List.getElem?_cons_zero, Option.some.injEq] at h
      simp only [List.set_cons_zero, List.mem_cons]
      rcases List.mem_cons.mp hx with hxa | hxl
      · exact absurd (h ▸ hxa.symm) hne
      · exact Or.inr hxl
    | succ t =>
      simp only [List.getElem?_cons_succ] at h
      simp only [List.set_cons_succ, List.mem_cons]
      rcases List.mem_cons.mp hx with hxa | hxl
      · exact Or.inl hxa
      · exact Or.inr (ih hxl h)

/-! ## The error/running invariant -/

theorem step_consistent {s s1 : Sys} {a : Action} (hs : Consistent s)
    (h : step s a = .ok s1) : Consistent s1 := by
  unfold Consistent at hs ⊢
  cases a with
  | Run =>
    cases h
    intro he hr
    simp only [Run, List.mem_append]
    exact Or.inl (hs he hr)
  | lockedSection t =>
    obtain ⟨_, rfl⟩ := step_lockedSection_ok h
    intro he
    simp [start_locked] at he
  | callDoString t =>
    obtain ⟨hpc, st, _, rfl⟩ := step_callDoString_ok h
    intro he hr
    exact mem_set_of_ne (hs he hr) hpc (by simp)
  | returnDoString t r =>
    obtain ⟨⟨st, hpc⟩, rfl⟩ := step_returnDoString_ok h
    intro he hr
    exact mem_set_of_ne (hs he hr) hpc (by simp)
  | setError t =>
    obtain ⟨r, hpc, rfl⟩ := step_setError_ok h
    intro _ _
    exact mem_set_self hpc
  | setRunning t =>
    obtain ⟨_, rfl⟩ := step_setRunning_ok h
    intro _ hr
    simp [setRunning] at hr
  | IsRunning => cases h; exact hs
  | Error => cases h; exact hs
  | Stop =>
    obtain ⟨c, _, rfl⟩ := step_Stop_ok h
    exact hs

theorem exec_consistent {s s1 : Sys} {acts : List Action} (hs : Consistent s)
    (h : exec s acts = .ok s1) : Consistent s1 := by
  induction acts generalizing s with
  | nil => cases h; exact hs
  | cons a acts ih =>
    simp only [exec] at h
    cases hstep : step s a with
    | error e => simp [hstep] at h
    | ok s2 =>
      simp only [hstep] at h
      exact ih (step_consistent hs hstep) h

/-! ## A single run -/

theorem single_get {pc x : Pc} {t : Nat} (h : [pc][t]? = some x) : t = 0 ∧ pc = x := by
  cases t with
  | zero => simpa using h
  | succ t => simp at h

theorem step_single {p0 : luaPlugin} {outs : List (Option String)} {s s1 : Sys} {a : Action}
    (hs : Single p0 outs s) (ha : a ≠ .Run) (h : step s a = .ok s1) :
    Single p0 (outs ++ outcomes [a]) s1 := by
  obtain ⟨pc, hth, hat⟩ := hs
  cases a with
  | Run => exact absurd rfl ha
  | lockedSection t =>
    obtain ⟨hpc, rfl⟩ := step_lockedSection_ok h
    rw [hth] at hpc
    obtain ⟨rfl, rfl⟩ := single_get hpc
    obtain ⟨hp, ho⟩ := hat
    exact ⟨.atDoString, by simp [hth], by simp [SingleAt, start_locked, outcomes, ho, hp]⟩
  | callDoString t =>
    obtain ⟨hpc, st, _, rfl⟩ := step_callDoString_ok h
    rw [hth] at hpc
    obtain ⟨rfl, rfl⟩ := single_get hpc
    exact ⟨.inDoString st, by simp [hth], by simpa [SingleAt, outcomes] using hat⟩
  | returnDoString t r =>
    obtain ⟨⟨st, hpc⟩, rfl⟩ := step_returnDoString_ok h
    rw [hth] at hpc
    obtain ⟨rfl, rfl⟩ := single_get hpc
    obtain ⟨hr, he, hb, ho⟩ := hat
    exact ⟨.atSetError r, by simp [hth], by simp [SingleAt, outcomes, hr, he, hb, ho]⟩
  | setError t =>
    obtain ⟨r, hpc, rfl⟩ := step_setError_ok h
    rw [hth] at hpc
    obtain ⟨rfl, rfl⟩ := single_get hpc
    obtain ⟨hr, he, hb, ho⟩ := hat
    exact ⟨.atSetRunning, by simp [hth], by simp [SingleAt, outcomes, setError, hr, hb, ho]⟩
  | setRunning t =>
    obtain ⟨hpc, rfl⟩ := step_setRunning_ok h
    rw [hth] at hpc
    obtain ⟨rfl, rfl⟩ := single_get hpc
    obtain ⟨hr, hb, ho⟩ := hat
    exact ⟨.done, by simp [hth], by simp [SingleAt, outcomes, setRunning, hb, ho]⟩
  | IsRunning => cases h; exact ⟨pc, hth, by simpa [outcomes] using hat⟩
  | Error => cases h; exact ⟨pc, hth, by simpa [outcomes] using hat⟩
  | Stop =>
    obtain ⟨c, _, rfl⟩ := step_Stop_ok h
    exact ⟨pc, hth, by simpa [outcomes] using hat⟩

theorem exec_single {p0 : luaPlugin} {outs : List (Option String)} {s s1 : Sys}
    {acts : List Action} (hs : Single p0 outs s) (ha : Action.Run ∉ acts)
    (h : exec s acts = .ok s1) : Single p0 (outs ++ outcomes acts) s1 := by
  induction acts generalizing s outs with
  | nil => cases h; simpa [outcomes] using hs
  | cons a acts ih =>
    simp only [exec] at h
    cases hstep : step s a with
    | error e => simp [hstep] at h
    | ok s2 =>
      simp only [hstep] at h
      have hne : a ≠ .Run := fun e => ha (e ▸ List.mem_cons_self _ _)
      have hrest : Action.Run ∉ acts := fun m => ha (List.mem_cons_of_mem _ m)
      have := ih (step_single hs hne hstep) hrest h
      have hsplit : outcomes (a :: acts) = outcomes [a] ++ outcomes acts :=
        outcomes_append [a] acts
      rw [hsplit, ← List.append_assoc]
      exact this

theorem step_rank {s s1 : Sys} {a : Action} {pc : Pc} (hth : s.threads = [pc])
    (ha : a ≠ .Run) (h : step s a = .ok s1) :
    ∃ pc1, s1.threads = [pc1] ∧ pc.rank ≤ pc1.rank := by
  cases a with
  | Run => exact absurd rfl ha
  | lockedSection t =>
    obtain ⟨hpc, rfl⟩ := step_lockedSection_ok h
    rw [hth] at hpc
    obtain ⟨rfl, rfl⟩ := single_get hpc
    exact ⟨.atDoString, by simp [hth], by simp [Pc.rank]⟩
  | callDoString t =>
    obtain ⟨hpc, st, _, rfl⟩ := step_callDoString_ok h
    rw [hth] at hpc
    obtain ⟨rfl, rfl⟩ := single_get hpc
    exact ⟨.inDoString st, by simp [hth], by simp [Pc.rank]⟩
  | returnDoString t r =>
    obtain ⟨⟨st, hpc⟩, rfl⟩ := step_returnDoString_ok h
    rw [hth] at hpc
    obtain ⟨rfl, rfl⟩ := single_get hpc
    exact ⟨.atSetError r, by simp [hth], by simp [Pc.rank]⟩
  | setError t =>
    obtain ⟨r, hpc, rfl⟩ := step_setError_ok h
    rw [hth] at hpc
    obtain ⟨rfl, rfl⟩ := single_get hpc
    exact ⟨.atSetRunning, by simp [hth], by simp [Pc.rank]⟩
  | setRunning t =>
    obtain ⟨hpc, rfl⟩ := step_setRunning_ok h
    rw [hth] at hpc
    obtain ⟨rfl, rfl⟩ := single_get hpc
    exact ⟨.done, by simp [hth], by simp [Pc.rank]⟩
  | IsRunning => cases h; exact ⟨pc, hth, le_refl _⟩
  | Error => cases h; exact ⟨pc, hth, le_refl _⟩
  | Stop =>
    obtain ⟨c, _, rfl⟩ := step_Stop_ok h
    exact ⟨pc, hth, le_refl _⟩

theorem exec_rank {s s1 : Sys} {acts : List Action} {pc : Pc} (hth : s.threads = [pc])
    (ha : Action.Run ∉ acts) (h : exec s acts = .ok s1) :
    ∃ pc1, s1.threads = [pc1] ∧ pc.rank ≤ pc1.rank := by
  induction acts generalizing s pc with
  | nil => cases h; exact ⟨pc, hth, le_refl _⟩
  | cons a acts ih =>
    simp only [exec] at h
    cases hstep : step s a with
    | error e => simp [hstep] at h
    | ok s2 =>
      simp only [hstep] at h
      have hne : a ≠ .Run := fun e => ha (e ▸ List.mem_cons_self _ _)
      have hrest : Action.Run ∉ acts := fun m => ha (List.mem_cons_of_mem _ m)
      obtain ⟨pc2, hth2, hle2⟩ := step_rank hth hne hstep
      obtain ⟨pc1, hth1, hle1⟩ := ih hth2 hrest h
      exact ⟨pc1, hth1, le_trans hle2 hle1⟩

/-- In a single run on a handle that was not running, the flag is set exactly
while the goroutine is past its locked section and has not returned. -/
theorem single_running_iff {p0 p : luaPlugin} {outs : List (Option String)} {pc : Pc}
    (h0 : p0.running = false) (hat : SingleAt p0 outs p pc) :
    p.running = true ↔ (1 ≤ pc.rank ∧ pc.rank ≤ 4) := by
  cases pc <;> simp [SingleAt, Pc.rank] at hat ⊢
  · rw [hat.1, h0]
  · exact hat.1
  · exact hat.1
  · exact hat.1
  · exact hat.1
  · exact hat.1

/-! ## Identifiers stay below the allocation counters -/

theorem mem_cancel {rt : Runtime} {c x : Nat} :
    x ∈ (rt.cancel c).cancelled ↔ x = c ∨ x ∈ rt.cancelled := by
  unfold Runtime.cancel
  by_cases hc : c ∈ rt.cancelled
  · simp only [hc, if_true]
    constructor
    · exact Or.inr
    · rintro (rfl | h)
      · exact hc
      · exact h
  · simp [hc]

theorem step_wf {s s1 : Sys} {a : Action} (hs : s.wf) (h : step s a = .ok s1) : s1.wf := by
  cases a with
  | Run => cases h; exact hs
  | lockedSection t =>
    obtain ⟨_, rfl⟩ := step_lockedSection_ok h
    constructor
    · intro c hc
      simp only [start_locked, Option.some.injEq] at hc
      subst hc
      simp [start_locked]
    · intro i hi
      simp only [start_locked, Option.some.injEq] at hi
      subst hi
      simp [start_locked]
  | callDoString t => obtain ⟨_, st, _, rfl⟩ := step_callDoString_ok h; exact hs
  | returnDoString t r => obtain ⟨_, rfl⟩ := step_returnDoString_ok h; exact hs
  | setError t => obtain ⟨r, _, rfl⟩ := step_setError_ok h; exact hs
  | setRunning t => obtain ⟨_, rfl⟩ := step_setRunning_ok h; exact hs
  | IsRunning => cases h; exact hs
  | Error => cases h; exact hs
  | Stop => obtain ⟨c, _, rfl⟩ := step_Stop_ok h; exact hs

theorem exec_wf {s s1 : Sys} {acts : List Action} (hs : s.wf)
    (h : exec s acts = .ok s1) : s1.wf := by
  induction acts generalizing s with
  | nil => cases h; exact hs
  | cons a acts ih =>
    simp only [exec] at h
    cases hstep : step s a with
    | error e => simp [hstep] at h
    | ok s2 =>
      simp only [hstep] at h
      exact ih (step_wf hs hstep) h

theorem New_wf (body : String) (rt : Runtime) : (Sys.New body rt).wf := by
  constructor <;> intro _ h <;> simp [Sys.New, New] at h

/-! ## A cancel signal the handle no longer stores -/

theorem step_lost {c1 : Nat} {s s1 : Sys} {a : Action} (hs : Lost c1 s)
    (h : step s a = .ok s1) :
    Lost c1 s1 ∧ (c1 ∈ s1.rt.cancelled → c1 ∈ s.rt.cancelled) := by
  obtain ⟨hlt, hne⟩ := hs
  cases a with
  | Run => cases h; exact ⟨⟨hlt, hne⟩, id⟩
  | lockedSection t =>
    obtain ⟨_, rfl⟩ := step_lockedSection_ok h
    refine ⟨⟨?_, ?_⟩, ?_⟩
    · simp only [start_locked]; omega
    · simp only [start_locked, ne_eq, Option.some.injEq]; omega
    · simp [start_locked]
  | callDoString t =>
    obtain ⟨_, st, _, rfl⟩ := step_callDoString_ok h; exact ⟨⟨hlt, hne⟩, id⟩
  | returnDoString t r =>
    obtain ⟨_, rfl⟩ := step_returnDoString_ok h; exact ⟨⟨hlt, hne⟩, id⟩
  | setError t =>
    obtain ⟨r, _, rfl⟩ := step_setError_ok h; exact ⟨⟨hlt, hne⟩, id⟩
  | setRunning t =>
    obtain ⟨_, rfl⟩ := step_setRunning_ok h; exact ⟨⟨hlt, hne⟩, id⟩
  | IsRunning => cases h; exact ⟨⟨hlt, hne⟩, id⟩
  | Error => cases h; exact ⟨⟨hlt, hne⟩, id⟩
  | Stop =>
    obtain ⟨c, hc, rfl⟩ := step_Stop_ok h
    refine ⟨⟨hlt, hne⟩, ?_⟩
    intro hm
    rcases mem_cancel.mp hm with heq | hold
    · exact absurd (heq ▸ hc) hne
    · exact hold

theorem exec_lost {c1 : Nat} {s s1 : Sys} {acts : List Action} (hs : Lost c1 s)
    (h : exec s acts = .ok s1) :
    Lost c1 s1 ∧ (c1 ∈ s1.rt.cancelled → c1 ∈ s.rt.cancelled) := by
  induction acts generalizing s with
  | nil => cases h; exact ⟨hs, id⟩
  | cons a acts ih =>
    simp only [exec] at h
    cases hstep : step s a with
    | error e => simp [hstep] at h
    | ok s2 =>
      simp only [hstep] at h
      obtain ⟨h2, hm2⟩ := step_lost hs hstep
      obtain ⟨h1, hm1⟩ := ih h2 h
      exact ⟨h1, fun m => hm2 (hm1 m)⟩

theorem step_fires_only {c2 : Nat} {s s1 : Sys} {a : Action}
    (hc : s.p.cancelFunc = some c2) (ha : ∀ t, a ≠ .lockedSection t)
    (h : step s a = .ok s1) :
    s1.p.cancelFunc = some c2 ∧ ∀ x ∈ s1.rt.cancelled, x ∈ s.rt.cancelled ∨ x = c2 := by
  cases a with
  | Run => cases h; exact ⟨hc, fun x hx => Or.inl hx⟩
  | lockedSection t => exact absurd rfl (ha t)
  | callDoString t =>
    obtain ⟨_, st, _, rfl⟩ := step_callDoString_ok h; exact ⟨hc, fun x hx => Or.inl hx⟩
  | returnDoString t r =>
    obtain ⟨_, rfl⟩ := step_returnDoString_ok h; exact ⟨hc, fun x hx => Or.inl hx⟩
  | setError t =>
    obtain ⟨r, _, rfl⟩ := step_setError_ok h; exact ⟨hc, fun x hx => Or.inl hx⟩
  | setRunning t =>
    obtain ⟨_, rfl⟩ := step_setRunning_ok h; exact ⟨hc, fun x hx => Or.inl hx⟩
  | IsRunning => cases h; exact ⟨hc, fun x hx => Or.inl hx⟩
  | Error => cases h; exact ⟨hc, fun x hx => Or.inl hx⟩
  | Stop =>
    obtain ⟨c, hc1, rfl⟩ := step_Stop_ok h
    have hcc : c = c2 := Option.some.inj (hc1.symm.trans hc)
    refine ⟨hc, fun x hx => ?_⟩
    rcases mem_cancel.mp hx with heq | hold
    · exact Or.inr (heq.trans hcc)
    · exact Or.inl hold

theorem exec_fires_only {c2 : Nat} {s s1 : Sys} {acts : List Action}
    (hc : s.p.cancelFunc = some c2) (ha : ∀ t, Action.lockedSection t ∉ acts)
    (h : exec s acts = .ok s1) :
    s1.p.cancelFunc = some c2 ∧ ∀ x ∈ s1.rt.cancelled, x ∈ s.rt.cancelled ∨ x = c2 := by
  induction acts generalizing s with
  | nil => cases h; exact ⟨hc, fun x hx => Or.inl hx⟩
  | cons a acts ih =>
    simp only [exec] at h
    cases hstep : step s a with
    | error e => simp [hstep] at h
    | ok s2 =>
      simp only [hstep] at h
      have hne : ∀ t, a ≠ .lockedSection t := fun t e => ha t (e ▸ List.mem_cons_self _ _)
      have hrest : ∀ t, Action.lockedSection t ∉ acts :=
        fun t m => ha t (List.mem_cons_of_mem _ m)
      obtain ⟨hc2, hm2⟩ := step_fires_only hc hne hstep
      obtain ⟨hc1, hm1⟩ := ih hc2 hrest h
      refine ⟨hc1, fun x hx => ?_⟩
      rcases hm1 x hx with h3 | h3
      · exact hm2 x h3
      · exact Or.inr h3

/-! ## A handle that was never started -/

theorem step_unstarted {body : String} {s s1 : Sys} {a : Action} (hs : Unstarted body s)
    (ha : ∀ t, a ≠ .lockedSection t) (h : step s a = .ok s1) : Unstarted body s1 := by
  obtain ⟨hp, hth⟩ := hs
  cases a with
  | Run =>
    cases h
    refine ⟨hp, fun pc hpc => ?_⟩
    simp only [Run, List.mem_append, List.mem_singleton] at hpc
    rcases hpc with h1 | h1
    · exact hth pc h1
    · exact h1
  | lockedSection t => exact absurd rfl (ha t)
  | callDoString t =>
    obtain ⟨hpc, _⟩ := step_callDoString_ok h
    exact absurd (hth _ (List.getElem?_mem hpc)) (by simp)
  | returnDoString t r =>
    obtain ⟨⟨st, hpc⟩, _⟩ := step_returnDoString_ok h
    exact absurd (hth _ (List.getElem?_mem hpc)) (by simp)
  | setError t =>
    obtain ⟨r, hpc, _⟩ := step_setError_ok h
    exact absurd (hth _ (List.getElem?_mem hpc)) (by simp)
  | setRunning t =>
    obtain ⟨hpc, _⟩ := step_setRunning_ok h
    exact absurd (hth _ (List.getElem?_mem hpc)) (by simp)
  | IsRunning => cases h; exact ⟨hp, hth⟩
  | Error => cases h; exact ⟨hp, hth⟩
  | Stop =>
    obtain ⟨c, hc, _⟩ := step_Stop_ok h
    rw [hp] at hc
    simp [New] at hc

theorem exec_unstarted {body : String} {s s1 : Sys} {acts : List Action}
    (hs : Unstarted body s) (ha : ∀ t, Action.lockedSection t ∉ acts)
    (h : exec s acts = .ok s1) : Unstarted body s1 := by
  induction acts generalizing s with
  | nil => cases h; exact hs
  | cons a acts ih =>
    simp only [exec] at h
    cases hstep : step s a with
    | error e => simp [hstep] at h
    | ok s2 =>
      simp only [hstep] at h
      have hne : ∀ t, a ≠ .lockedSection t := fun t e => ha t (e ▸ List.mem_cons_self _ _)
      have hrest : ∀ t, Action.lockedSection t ∉ acts :=
        fun t m => ha t (List.mem_cons_of_mem _ m)
      exact ih (step_unstarted hs hne hstep) hrest h

/-! ## Which steps write the handle -/

theorem step_writes {s s1 : Sys} {a : Action} (hth : ∀ pc ∈ s.threads, pc ≠ .atLock)
    (h : step s a = .ok s1) (hp : s1.p ≠ s.p) :
    ∃ t, a = .setError t ∨ a = .setRunning t := by
  cases a with
  | Run => cases h; exact absurd rfl hp
  | lockedSection t =>
    obtain ⟨hpc, _⟩ := step_lockedSection_ok h
    exact absurd rfl (hth _ (List.getElem?_mem hpc))
  | callDoString t =>
    obtain ⟨_, st, _, rfl⟩ := step_callDoString_ok h; exact absurd rfl hp
  | returnDoString t r =>
    obtain ⟨_, rfl⟩ := step_returnDoString_ok h; exact absurd rfl hp
  | setError t => exact ⟨t, Or.inl rfl⟩
  | setRunning t => exact ⟨t, Or.inr rfl⟩
  | IsRunning => cases h; exact absurd rfl hp
  | Error => cases h; exact absurd rfl hp
  | Stop => obtain ⟨c, _, rfl⟩ := step_Stop_ok h; exact absurd rfl hp

theorem step_writes_any {s s1 : Sys} {a : Action} (h : step s a = .ok s1) (hp : s1.p ≠ s.p) :
    ∃ t, a = .lockedSection t ∨ a = .setError t ∨ a = .setRunning t := by
  cases a with
  | Run => cases h; exact absurd rfl hp
  | lockedSection t => exact ⟨t, Or.inl rfl⟩
  | callDoString t =>
    obtain ⟨_, st, _, rfl⟩ := step_callDoString_ok h; exact absurd rfl hp
  | returnDoString t r =>
    obtain ⟨_, rfl⟩ := step_returnDoString_ok h; exact absurd rfl hp
  | setError t => exact ⟨t, Or.inr (Or.inl rfl)⟩
  | setRunning t => exact ⟨t, Or.inr (Or.inr rfl)⟩
  | IsRunning => cases h; exact absurd rfl hp
  | Error => cases h; exact absurd rfl hp
  | Stop => obtain ⟨c, _, rfl⟩ := step_Stop_ok h; exact absurd rfl hp

/-! ## The stored cancel signal -/

theorem step_stored {c : Nat} {s s1 : Sys} {a : Action} (hw : s.wf)
    (hc : s.p.cancelFunc = some c) (h : step s a = .ok s1) :
    ∃ c2, s1.p.cancelFunc = some c2 ∧ c ≤ c2 := by
  cases a with
  | Run => cases h; exact ⟨c, hc, le_refl _⟩
  | lockedSection t =>
    obtain ⟨_, rfl⟩ := step_lockedSection_ok h
    exact ⟨s.rt.ctxs, rfl, Nat.le_of_lt (hw.1 c hc)⟩
  | callDoString t =>
    obtain ⟨_, st, _, rfl⟩ := step_callDoString_ok h; exact ⟨c, hc, le_refl _⟩
  | returnDoString t r =>
    obtain ⟨_, rfl⟩ := step_returnDoString_ok h; exact ⟨c, hc, le_refl _⟩
  | setError t =>
    obtain ⟨r, _, rfl⟩ := step_setError_ok h; exact ⟨c, hc, le_refl _⟩
  | setRunning t =>
    obtain ⟨_, rfl⟩ := step_setRunning_ok h; exact ⟨c, hc, le_refl _⟩
  | IsRunning => cases h; exact ⟨c, hc, le_refl _⟩
  | Error => cases h; exact ⟨c, hc, le_refl _⟩
  | Stop => obtain ⟨c3, _, rfl⟩ := step_Stop_ok h; exact ⟨c, hc, le_refl _⟩

theorem exec_stored {c : Nat} {s s1 : Sys} {acts : List Action} (hw : s.wf)
    (hc : s.p.cancelFunc = some c) (h : exec s acts = .ok s1) :
    ∃ c2, s1.p.cancelFunc = some c2 ∧ c ≤ c2 := by
  induction acts generalizing s c with
  | nil => cases h; exact ⟨c, hc, le_refl _⟩
  | cons a acts ih =>
    simp only [exec] at h
    cases hstep : step s a with
    | error e => simp [hstep] at h
    | ok s2 =>
      simp only [hstep] at h
      obtain ⟨c2, hc2, hle2⟩ := step_stored hw hc hstep
      obtain ⟨c3, hc3, hle3⟩ := ih (step_wf hw hstep) hc2 h
      exact ⟨c3, hc3, le_trans hle2 hle3⟩

theorem rank_le_five (pc : Pc) : pc.rank ≤ 5 := by
  cases pc <;> simp [Pc.rank]

theorem rank_five {pc : Pc} (h : 5 ≤ pc.rank) : pc = .done := by
  cases pc <;> simp [Pc.rank] at h ⊢

theorem exec_Run_cons {s s1 : Sys} {acts : List Action}
    (h : exec s (.Run :: acts) = .ok s1) : exec (Run s) acts = .ok s1 := by
  simpa [exec, step] using h

theorem single_spawned (p0 : luaPlugin) (rt : Runtime) :
    Single p0 [] (Run { p := p0, rt := rt, threads := [] }) :=
  ⟨.atLock, rfl, rfl, rfl⟩

/-! ## The claims -/

/-- Claim C7: the handle `New(body)` makes stores `body`, is not running, has
no error and no cancel signal; `getRunning` is false, `getError` is none and
`Error` pushes nothing, and this stays so under every schedule in which no
goroutine enters its locked section. -/
theorem New_spec (body : String) :
    (New body).body = body ∧ (New body).running = false ∧ (New body).error = none ∧
    (New body).cancelFunc = none ∧ (New body).state = none ∧
    getRunning (New body) = false ∧ getError (New body) = none ∧
    Error (New body) = ([], 0) ∧
    ∀ rt acts s, (∀ t, Action.lockedSection t ∉ acts) →
      exec (Sys.New body rt) acts = .ok s →
      getRunning s.p = false ∧ getError s.p = none ∧ Error s.p = ([], 0) := by
  refine ⟨rfl, rfl, rfl, rfl, rfl, rfl, rfl, rfl, ?_⟩
  intro rt acts s hno h
  have h0 : Unstarted body (Sys.New body rt) := ⟨rfl, fun pc hpc => by simp [Sys.New] at hpc⟩
  obtain ⟨hp, _⟩ := exec_unstarted h0 hno h
  rw [hp]
  exact ⟨rfl, rfl, rfl⟩

/-- Witness of C7 on a schedule with a spawn and two observations. -/
theorem New_spec_witness :
    getRunning (New "return 1") = false ∧ getError (New "return 1") = none ∧
    Error (New "return 1") = ([], 0) ∧
    exec (Sys.New "return 1" Runtime.empty) [.Run, .IsRunning, .Error]
      = .ok { p := New "return 1", rt := Runtime.empty, threads := [.atLock] } ∧
    getRunning (New "return 1") = false ∧ getError (New "return 1") = none ∧
    Error (New "return 1") = ([], 0) :=
  have h := New_spec "return 1"
  ⟨h.2.2.2.2.2.1, h.2.2.2.2.2.2.1, h.2.2.2.2.2.2.2.1, rfl,
   h.2.2.2.2.2.2.2.2 Runtime.empty [.Run, .IsRunning, .Error]
     { p := New "return 1", rt := Runtime.empty, threads := [.atLock] }
     (fun t => by simp) rfl⟩

/-- Claim C6: whatever the handle held before, the locked section of `start`
leaves it with no error, running set, a new engine instance that no earlier
allocation returned, a non-nil cancel signal that no earlier `WithCancel`
returned and whose context is the one installed in that instance, and the
same body; a goroutine at the head of `start` performs it as one step. -/
theorem start_locked_spec (p : luaPlugin) (rt : Runtime) :
    (start_locked p rt).1.error = none ∧
    (start_locked p rt).1.running = true ∧
    (start_locked p rt).1.body = p.body ∧
    (start_locked p rt).1.state = some rt.states ∧
    (∀ i, i < rt.states → (start_locked p rt).1.state ≠ some i) ∧
    (start_locked p rt).1.cancelFunc = some rt.ctxs ∧
    (start_locked p rt).1.cancelFunc ≠ none ∧
    (∀ c, c < rt.ctxs → (start_locked p rt).1.cancelFunc ≠ some c) ∧
    (start_locked p rt).2.contextOf rt.states = some rt.ctxs ∧
    (start_locked p rt).2.states = rt.states + 1 ∧
    (start_locked p rt).2.ctxs = rt.ctxs + 1 ∧
    (start_locked p rt).2.cancelled = rt.cancelled ∧
    (∀ threads t, threads[t]? = some Pc.atLock →
      step { p := p, rt := rt, threads := threads } (.lockedSection t) =
        .ok { p := (start_locked p rt).1, rt := (start_locked p rt).2,
              threads := threads.set t .atDoString }) ∧
    unguarded false (start_ops.take 7) = [] := by
  refine ⟨rfl, rfl, rfl, rfl, ?_, rfl, ?_, ?_, ?_, rfl, rfl, rfl, ?_, ?_⟩
  · intro i hi
    simp only [start_locked, ne_eq, Option.some.injEq]
    omega
  · simp [start_locked]
  · intro c hc
    simp only [start_locked, ne_eq, Option.some.injEq]
    omega
  · simp [start_locked, Runtime.contextOf, List.lookup]
  · intro threads t ht
    simp [step, ht]
  · decide

/-- Witness of C6: a restart of a handle holding the error of an earlier run. -/
theorem start_locked_spec_witness :
    start_locked
      { state := some 0, cancelFunc := some 0, running := false, error := some "boom",
        body := "error(0)" }
      { states := 1, ctxs := 1, context := [(0, 0)], cancelled := [] }
    = ({ state := some 1, cancelFunc := some 1, running := true, error := none,
         body := "error(0)" },
       { states := 2, ctxs := 2, context := [(1, 1), (0, 0)], cancelled := [] }) ∧
    step
      { p := { state := some 0, cancelFunc := some 0, running := false, error := some "boom",
               body := "error(0)" },
        rt := { states := 1, ctxs := 1, context := [(0, 0)], cancelled := [] },
        threads := [.done, .atLock] } (.lockedSection 1)
    = .ok
      { p := (start_locked
                { state := some 0, cancelFunc := some 0, running := false,
                  error := some "boom", body := "error(0)" }
                { states := 1, ctxs := 1, context := [(0, 0)], cancelled := [] }).1,
        rt := (start_locked
                { state := some 0, cancelFunc := some 0, running := false,
                  error := some "boom", body := "error(0)" }
                { states := 1, ctxs := 1, context := [(0, 0)], cancelled := [] }).2,
        threads := [Pc.done, Pc.atLock].set 1 .atDoString } :=
  ⟨rfl,
   (start_locked_spec
      { state := some 0, cancelFunc := some 0, running := false, error := some "boom",
        body := "error(0)" }
      { states := 1, ctxs := 1, context := [(0, 0)], cancelled := [] }).2.2.2.2.2.2.2.2.2.2.2.2.1
      [.done, .atLock] 1 rfl⟩

/-- Claim C2 fails on the code: on a handle that was never started `Stop`
calls the nil `cancelFunc` and faults, as a call of the binding function and
as a step of any system holding the fresh handle. -/
theorem Stop_unstarted_faults (body : String) (rt : Runtime) :
    Stop (New body) rt = .error .nilCancelFunc ∧
    step (Sys.New body rt) .Stop = .error .nilCancelFunc ∧
    exec (Sys.New body rt) [.Stop] = .error .nilCancelFunc :=
  ⟨rfl, rfl, rfl⟩

/-- Claim C8, as stated, fails: on a handle on which a run has been started
and has finished, the locked section of a further start, which is neither a
`setError` nor a `setRunning` write-back, sets the flag, clears the error and
replaces the instance. -/
theorem locked_section_writes_started_handle :
    ∃ s s1,
      exec (Sys.New "error(0)" Runtime.empty)
        [.Run, .lockedSection 0, .callDoString 0, .returnDoString 0 (some "boom"),
         .setError 0, .setRunning 0, .Run] = .ok s ∧
      s.p.cancelFunc = some 0 ∧
      step s (.lockedSection 1) = .ok s1 ∧
      getRunning s.p = false ∧ getRunning s1.p = true ∧
      getError s.p = some "boom" ∧ getError s1.p = none ∧
      s.p.state = some 0 ∧ s1.p.state = some 1 ∧
      ¬ ∃ t, Action.lockedSection 1 = .setError t ∨ Action.lockedSection 1 = .setRunning t :=
  ⟨_, _, rfl, rfl, rfl, rfl, rfl, rfl, rfl, rfl, rfl,
   fun ⟨_, h⟩ => h.elim (fun e => Action.noConfusion e) (fun e => Action.noConfusion e)⟩

/-- Claim C8, amended: on a handle that stores a cancel signal `Stop` succeeds,
returns the handle as it was (flag, error, body, instance and signal), and
only adds the stored signal to the fired ones; a step that changes the flag,
the error, the body or the instance is a step of an executing unit, namely
the locked section of a start or a `setError` or `setRunning` write-back, and
while no goroutine is before its locked section it is one of the two
write-backs. -/
theorem Stop_frame (p : luaPlugin) (rt : Runtime) (c : Nat) (hc : p.cancelFunc = some c) :
    (∃ rt1, Stop p rt = .ok (p, rt1) ∧
      rt1.states = rt.states ∧ rt1.ctxs = rt.ctxs ∧ rt1.context = rt.context ∧
      (∀ x, x ∈ rt1.cancelled ↔ x = c ∨ x ∈ rt.cancelled) ∧
      (∀ threads, step { p := p, rt := rt, threads := threads } .Stop =
        .ok { p := p, rt := rt1, threads := threads })) ∧
    (∀ threads a s1, (∀ pc ∈ threads, pc ≠ Pc.atLock) →
      step { p := p, rt := rt, threads := threads } a = .ok s1 →
      (getRunning s1.p ≠ getRunning p ∨ getError s1.p ≠ getError p ∨
        s1.p.body ≠ p.body ∨ s1.p.state ≠ p.state) →
      ∃ t, a = .setError t ∨ a = .setRunning t) ∧
    (∀ threads a s1,
      step { p := p, rt := rt, threads := threads } a = .ok s1 →
      (getRunning s1.p ≠ getRunning p ∨ getError s1.p ≠ getError p ∨
        s1.p.body ≠ p.body ∨ s1.p.state ≠ p.state) →
      ∃ t, a = .lockedSection t ∨ a = .setError t ∨ a = .setRunning t) := by
  refine ⟨?_, ?_, ?_⟩
  · refine ⟨rt.cancel c, ?_, rfl, rfl, rfl, fun x => mem_cancel, ?_⟩
    · simp [Stop, hc]
    · intro threads
      simp [step, Stop, hc]
  · intro threads a s1 hth h hchg
    refine step_writes hth h ?_
    intro heq
    simp only at heq
    rw [heq] at hchg
    simp at hchg
  · intro threads a s1 h hchg
    refine step_writes_any h ?_
    intro heq
    simp only at heq
    rw [heq] at hchg
    simp at hchg

/-- Witness of C8 (amended): `Stop` on a running handle, and the write-back
that then clears the flag. -/
theorem Stop_frame_witness :
    Stop { state := some 0, cancelFunc := some 0, running := true, error := none,
           body := "while true do end" }
         { states := 1, ctxs := 1, context := [(0, 0)], cancelled := [] }
    = .ok ({ state := some 0, cancelFunc := some 0, running := true, error := none,
             body := "while true do end" },
           { states := 1, ctxs := 1, context := [(0, 0)], cancelled := [0] }) ∧
    (∃ rt1,
      Stop { state := some 0, cancelFunc := some 0, running := true, error := none,
             body := "while true do end" }
           { states := 1, ctxs := 1, context := [(0, 0)], cancelled := [] }
      = .ok ({ state := some 0, cancelFunc := some 0, running := true, error := none,
               body := "while true do end" }, rt1) ∧
      (∀ x, x ∈ rt1.cancelled ↔ x = 0 ∨ x ∈ ([] : List Nat))) ∧
    ∃ t, Action.setRunning 0 = .setError t ∨ Action.setRunning 0 = .setRunning t :=
  ⟨rfl,
   (let ⟨rt1, h, _, _, _, hm, _⟩ :=
     (Stop_frame
       { state := some 0, cancelFunc := some 0, running := true, error := none,
         body := "while true do end" }
       { states := 1, ctxs := 1, context := [(0, 0)], cancelled := [] } 0 rfl).1
    ⟨rt1, h, hm⟩),
   (Stop_frame
       { state := some 0, cancelFunc := some 0, running := true, error := none,
         body := "while true do end" }
       { states := 1, ctxs := 1, context := [(0, 0)], cancelled := [0] } 0 rfl).2.1
     [.atSetRunning] (.setRunning 0)
     { p := { state := some 0, cancelFunc := some 0, running := false, error := none,
              body := "while true do end" },
       rt := { states := 1, ctxs := 1, context := [(0, 0)], cancelled := [0] },
       threads := [.done] }
     (by decide) rfl (Or.inl (by decide))⟩

/-- Claim C9 fails on the code: line 85 of `start` reads `p.state` after the
mutex was released on line 82, the only access to a mutable field outside it;
with two runs in flight the first goroutine so evaluates on the instance the
second one stored. -/
theorem start_reads_state_unguarded :
    unguarded false start_ops = [.read .state] ∧
    unguarded false getError_ops = [] ∧ unguarded false getRunning_ops = [] ∧
    unguarded false setError_ops = [] ∧ unguarded false setRunning_ops = [] ∧
    unguarded false Stop_ops = [] ∧
    exec (Sys.New "return 1" Runtime.empty)
      [.Run, .Run, .lockedSection 0, .lockedSection 1, .callDoString 0, .callDoString 1]
    = .ok { p := { state := some 1, cancelFunc := some 1, running := true, error := none,
                   body := "return 1" },
            rt := { states := 2, ctxs := 2, context := [(1, 1), (0, 0)], cancelled := [] },
            threads := [.inDoString 1, .inDoString 1] } := by
  refine ⟨by decide, by decide, by decide, by decide, by decide, by decide, rfl⟩

/-- Claim C1, as stated, fails: after the goroutine's `setError` and before
its `setRunning(false)` an observer reads a stored error while the flag is
still set. -/
theorem error_stored_while_running :
    ∃ s, exec (Sys.New "error(0)" Runtime.empty)
          [.Run, .lockedSection 0, .callDoString 0, .returnDoString 0 (some "boom"),
           .setError 0, .IsRunning, .Error] = .ok s ∧
      getError s.p = some "boom" ∧ getRunning s.p = true ∧
      IsRunning s.p = ([.LBool true], 1) ∧ Error s.p = ([.LString "boom"], 1) :=
  ⟨_, rfl, rfl, rfl, rfl, rfl⟩

/-- Claim C1, amended: in every state reached from a new handle by any
schedule of spawns, goroutine steps and observer calls, a stored error means
that the flag is clear or that some goroutine stands between its `setError`
and its `setRunning(false)`; so when no goroutine stands there, `getRunning`
true implies `getError` none. -/
theorem error_running_consistent (body : String) (rt : Runtime) (acts : List Action)
    (s : Sys) (h : exec (Sys.New body rt) acts = .ok s) :
    (getError s.p ≠ none → getRunning s.p = false ∨ Pc.atSetRunning ∈ s.threads) ∧
    (Pc.atSetRunning ∉ s.threads → getRunning s.p = true → getError s.p = none) := by
  have h0 : Consistent (Sys.New body rt) := by
    intro he
    simp [Sys.New, New] at he
  have hs := exec_consistent h0 h
  unfold Consistent at hs
  constructor
  · intro he
    cases hr : getRunning s.p with
    | false => exact Or.inl rfl
    | true => exact Or.inr (hs he hr)
  · intro hno hr
    by_contra he
    exact hno (hs he hr)

/-- Witness of C1 (amended): a completed failing run, and the window of the
counterexample. -/
theorem error_running_consistent_witness :
    exec (Sys.New "error(0)" Runtime.empty)
      [.Run, .lockedSection 0, .callDoString 0, .returnDoString 0 (some "boom"), .setError 0]
    = .ok { p := { state := some 0, cancelFunc := some 0, running := true,
                   error := some "boom", body := "error(0)" },
            rt := { states := 1, ctxs := 1, context := [(0, 0)], cancelled := [] },
            threads := [.atSetRunning] } ∧
    (getError ({ state := some 0, cancelFunc := some 0, running := true,
                 error := some "boom", body := "error(0)" } : luaPlugin) ≠ none →
      getRunning ({ state := some 0, cancelFunc := some 0, running := true,
                    error := some "boom", body := "error(0)" } : luaPlugin) = false ∨
      Pc.atSetRunning ∈ [Pc.atSetRunning]) :=
  ⟨rfl,
   (error_running_consistent "error(0)" Runtime.empty
      [.Run, .lockedSection 0, .callDoString 0, .returnDoString 0 (some "boom"), .setError 0]
      { p := { state := some 0, cancelFunc := some 0, running := true,
               error := some "boom", body := "error(0)" },
        rt := { states := 1, ctxs := 1, context := [(0, 0)], cancelled := [] },
        threads := [.atSetRunning] } rfl).1⟩

/-- Claim C3: in a single run on a new handle, once `getRunning` has been
true and later is false, the goroutine has returned, `DoString` returned
exactly once along the schedule, and `getError` yields that outcome then and
in every later state. -/
theorem error_final_after_running_cleared (body : String) (rt : Runtime)
    (acts1 acts2 acts3 : List Action) (s1 s2 s3 : Sys)
    (hrun : Action.Run ∉ acts1 ++ acts2 ++ acts3)
    (h1 : exec (Sys.New body rt) (.Run :: acts1) = .ok s1)
    (hr1 : getRunning s1.p = true)
    (h2 : exec s1 acts2 = .ok s2)
    (hr2 : getRunning s2.p = false)
    (h3 : exec s2 acts3 = .ok s3) :
    ∃ r, outcomes (acts1 ++ acts2) = [r] ∧ outcomes acts3 = [] ∧
      getError s2.p = r ∧ getError s3.p = r ∧ getRunning s3.p = false ∧
      s2.threads = [.done] := by
  have hrun1 : Action.Run ∉ acts1 := fun m => hrun (by simp [m])
  have hrun2 : Action.Run ∉ acts2 := fun m => hrun (by simp [m])
  have hrun3 : Action.Run ∉ acts3 := fun m => hrun (by simp [m])
  have hnew : (New body).running = false := rfl
  have e1 := exec_Run_cons h1
  have i1 := exec_single (single_spawned (New body) rt) hrun1 e1
  have i2 := exec_single i1 hrun2 h2
  have i3 := exec_single i2 hrun3 h3
  obtain ⟨pc1, hth1, hat1⟩ := i1
  obtain ⟨pc2, hth2, hat2⟩ := i2
  obtain ⟨pc3, hth3, hat3⟩ := i3
  have k1 := (single_running_iff hnew hat1).mp hr1
  obtain ⟨pc2a, hth2a, hle2⟩ := exec_rank hth1 hrun2 h2
  have hpc2 : pc2a = pc2 := by
    rw [hth2] at hth2a
    exact (List.head_eq_of_cons_eq hth2a).symm
  subst hpc2
  have k2 : ¬ (1 ≤ pc2a.rank ∧ pc2a.rank ≤ 4) := by
    intro hk
    have := (single_running_iff hnew hat2).mpr hk
    unfold getRunning at hr2
    rw [hr2] at this
    exact Bool.noConfusion this
  have hdone2 : pc2a = .done := rank_five (by
    have := rank_le_five pc2a
    omega)
  subst hdone2
  obtain ⟨pc3a, hth3a, hle3⟩ := exec_rank hth2 hrun3 h3
  have hpc3 : pc3a = pc3 := by
    rw [hth3] at hth3a
    exact (List.head_eq_of_cons_eq hth3a).symm
  subst hpc3
  have hdone3 : pc3a = .done := rank_five hle3
  subst hdone3
  obtain ⟨_, _, ho2⟩ := hat2
  obtain ⟨hrun3f, _, ho3⟩ := hat3
  simp only [List.nil_append] at ho2 ho3
  have hlen := congrArg List.length ho3
  simp only [ho2, List.length_append, List.length_cons, List.length_nil] at hlen
  have hnil : outcomes acts3 = [] := List.eq_nil_of_length_eq_zero (by omega)
  rw [ho2, hnil] at ho3
  simp only [List.append_nil, List.cons.injEq, and_true] at ho3
  refine ⟨s2.p.error, ?_, hnil, rfl, ho3.symm, hrun3f, hth2⟩
  rw [outcomes_append]
  exact ho2

/-- Witness of C3: a failing run observed before and after it ends. -/
theorem error_final_after_running_cleared_witness :
    ∃ r, outcomes ([Action.lockedSection 0, .IsRunning] ++
          [.callDoString 0, .returnDoString 0 (some "boom"), .setError 0, .setRunning 0,
           .IsRunning]) = [r] ∧
      outcomes [Action.Error, .Stop, .Error] = [] ∧
      getError ({ state := some 0, cancelFunc := some 0, running := false,
                  error := some "boom", body := "error(0)" } : luaPlugin) = r ∧
      getError ({ state := some 0, cancelFunc := some 0, running := false,
                  error := some "boom", body := "error(0)" } : luaPlugin) = r ∧
      getRunning ({ state := some 0, cancelFunc := some 0, running := false,
                    error := some "boom", body := "error(0)" } : luaPlugin) = false ∧
      [Pc.done] = [Pc.done] :=
  error_final_after_running_cleared "error(0)" Runtime.empty
    [.lockedSection 0, .IsRunning]
    [.callDoString 0, .returnDoString 0 (some "boom"), .setError 0, .setRunning 0, .IsRunning]
    [.Error, .Stop, .Error]
    { p := { state := some 0, cancelFunc := some 0, running := true, error := none,
             body := "error(0)" },
      rt := { states := 1, ctxs := 1, context := [(0, 0)], cancelled := [] },
      threads := [.atDoString] }
    { p := { state := some 0, cancelFunc := some 0, running := false, error := some "boom",
             body := "error(0)" },
      rt := { states := 1, ctxs := 1, context := [(0, 0)], cancelled := [] },
      threads := [.done] }
    { p := { state := some 0, cancelFunc := some 0, running := false, error := some "boom",
             body := "error(0)" },
      rt := { states := 1, ctxs := 1, context := [(0, 0)], cancelled := [0] },
      threads := [.done] }
    (by decide) rfl rfl rfl rfl rfl

/-- Claim C4, as stated, fails: when `Run` has returned the goroutine has only
been spawned, and `IsRunning` called right then pushes false. -/
theorem not_running_right_after_Run :
    ∃ s, exec (Sys.New "return 1" Runtime.empty) [.Run] = .ok s ∧
      s.threads = [.atLock] ∧ getRunning s.p = false ∧
      IsRunning s.p = ([.LBool false], 1) :=
  ⟨_, rfl, rfl, rfl, rfl⟩

/-- Claim C4, amended: `Run` only spawns the goroutine and leaves the handle
as it was, so on a new handle `getRunning` is still false when `Run` has
returned; the flag is set by the locked section inside the goroutine, and in a
single run `getRunning` is true exactly from the end of that section until
the goroutine's `setRunning(false)`. -/
theorem running_set_inside_goroutine (body : String) (rt : Runtime) :
    (∀ s, (Run s).p = s.p ∧ (Run s).rt = s.rt ∧ (Run s).threads = s.threads ++ [.atLock]) ∧
    getRunning (Run (Sys.New body rt)).p = false ∧
    (∀ acts s, Action.Run ∉ acts → exec (Sys.New body rt) (.Run :: acts) = .ok s →
      ∃ pc, s.threads = [pc] ∧ (getRunning s.p = true ↔ 1 ≤ pc.rank ∧ pc.rank ≤ 4)) ∧
    (∃ s, exec (Sys.New body rt) [.Run, .lockedSection 0] = .ok s ∧
      getRunning s.p = true) := by
  refine ⟨fun s => ⟨rfl, rfl, rfl⟩, rfl, ?_, ⟨_, rfl, rfl⟩⟩
  intro acts s hrun h
  have i1 := exec_single (single_spawned (New body) rt) hrun (exec_Run_cons h)
  obtain ⟨pc, hth, hat⟩ := i1
  exact ⟨pc, hth, single_running_iff rfl hat⟩

/-- Witness of C4 (amended): the flag before and after the locked section. -/
theorem running_set_inside_goroutine_witness :
    (∃ pc, [Pc.atLock] = [pc] ∧
      (getRunning (New "return 1") = true ↔ 1 ≤ pc.rank ∧ pc.rank ≤ 4)) ∧
    (∃ pc, [Pc.atDoString] = [pc] ∧
      (getRunning ({ state := some 0, cancelFunc := some 0, running := true, error := none,
                     body := "return 1" } : luaPlugin) = true ↔
        1 ≤ pc.rank ∧ pc.rank ≤ 4)) :=
  ⟨(running_set_inside_goroutine "return 1" Runtime.empty).2.2.1 [.IsRunning]
     { p := New "return 1", rt := Runtime.empty, threads := [.atLock] } (by decide) rfl,
   (running_set_inside_goroutine "return 1" Runtime.empty).2.2.1 [.lockedSection 0]
     { p := { state := some 0, cancelFunc := some 0, running := true, error := none,
              body := "return 1" },
       rt := { states := 1, ctxs := 1, context := [(0, 0)], cancelled := [] },
       threads := [.atDoString] } (by decide) rfl⟩

/-- Claim C5: for every handle with no goroutine in flight and every outcome
`r` of the evaluation, a single start does run to completion, and whenever it
has, under any interleaving with observers, the flag is clear and the stored
error is `r`; `Error` then pushes nothing on success and the one message on
failure.  The same holds of `start` run without interference. -/
theorem start_completes (p0 : luaPlugin) (rt : Runtime) (r : Option String) :
    (∃ s, exec { p := p0, rt := rt, threads := [] }
            [.Run, .lockedSection 0, .callDoString 0, .returnDoString 0 r, .setError 0,
             .setRunning 0] = .ok s ∧ s.threads = [.done]) ∧
    (∀ acts s, Action.Run ∉ acts →
      exec { p := p0, rt := rt, threads := [] } (.Run :: acts) = .ok s →
      s.threads = [.done] → outcomes acts = [r] →
      getRunning s.p = false ∧ getError s.p = r ∧ s.p.body = p0.body ∧
      Error s.p = (match r with
                   | none => ([], 0)
                   | some msg => ([.LString msg], 1))) ∧
    (∀ DoString : Nat → String → Option String, DoString rt.states p0.body = r →
      ∃ p rt1, start DoString p0 rt = .ok (p, rt1) ∧
        getRunning p = false ∧ getError p = r) := by
  refine ⟨⟨_, rfl, rfl⟩, ?_, ?_⟩
  · intro acts s hrun h hth ho
    have i1 := exec_single (single_spawned p0 rt) hrun (exec_Run_cons h)
    obtain ⟨pc, hth1, hat⟩ := i1
    rw [hth] at hth1
    have hpc : pc = .done := (List.head_eq_of_cons_eq hth1).symm
    subst hpc
    obtain ⟨hr, hb, hout⟩ := hat
    simp only [List.nil_append, ho, List.cons.injEq, and_true] at hout
    refine ⟨hr, hout.symm, hb, ?_⟩
    unfold Error getError
    rw [← hout]
  · intro DoString hD
    refine ⟨_, _, rfl, rfl, ?_⟩
    simpa [start_locked, setError, setRunning, getError] using hD

/-- Witness of C5: a failing run with observers interleaved. -/
theorem start_completes_witness :
    getRunning ({ state := some 0, cancelFunc := some 0, running := false,
                  error := some "boom", body := "error(0)" } : luaPlugin) = false ∧
    getError ({ state := some 0, cancelFunc := some 0, running := false,
                error := some "boom", body := "error(0)" } : luaPlugin) = some "boom" ∧
    ("error(0)" : String) = (New "error(0)").body ∧
    Error ({ state := some 0, cancelFunc := some 0, running := false,
             error := some "boom", body := "error(0)" } : luaPlugin)
      = ([.LString "boom"], 1) :=
  (start_completes (New "error(0)") Runtime.empty (some "boom")).2.1
    [.lockedSection 0, .IsRunning, .callDoString 0, .Stop, .returnDoString 0 (some "boom"),
     .Error, .setError 0, .setRunning 0]
    { p := { state := some 0, cancelFunc := some 0, running := false, error := some "boom",
             body := "error(0)" },
      rt := { states := 1, ctxs := 1, context := [(0, 0)], cancelled := [0] },
      threads := [.done] }
    (by decide) rfl rfl rfl

/-- Claim C10, as stated, fails: after the second locked section stored the
signal 1, a third start stores the signal 2, and the `Stop` that follows
fires 2 and not the signal of the second run. -/
theorem third_start_redirects_Stop :
    ∃ s1 s2,
      exec (Sys.New "while true do end" Runtime.empty)
        [.Run, .lockedSection 0, .callDoString 0, .Run, .lockedSection 1] = .ok s1 ∧
      s1.p.cancelFunc = some 1 ∧
      exec s1 [.callDoString 1, .Run, .lockedSection 2, .Stop] = .ok s2 ∧
      s2.rt.cancelled = [2] ∧ 1 ∉ s2.rt.cancelled :=
  ⟨_, _, rfl, rfl, rfl, rfl, by decide⟩

/-- Claim C10, amended: when a goroutine enters its locked section on a handle
that already stores the cancel signal `c1` of an earlier run, the section
replaces the stored instance and signal by new ones and fires nothing;
afterwards no schedule whatever fires `c1`, and after every schedule `Stop`
succeeds, leaves the handle alone and fires exactly the signal stored then,
which is not `c1` and is the one of the second run as long as no further
locked section has run. -/
theorem restart_loses_old_cancel (body : String) (rt0 : Runtime) (acts0 : List Action)
    (s : Sys) (t c1 : Nat)
    (hreach : exec (Sys.New body rt0) acts0 = .ok s)
    (hc1 : s.p.cancelFunc = some c1)
    (ht : s.threads[t]? = some .atLock) :
    ∃ s1, step s (.lockedSection t) = .ok s1 ∧
      s1.p.cancelFunc = some s.rt.ctxs ∧ s.rt.ctxs ≠ c1 ∧
      s1.p.state = some s.rt.states ∧ s1.p.state ≠ s.p.state ∧
      s1.rt.cancelled = s.rt.cancelled ∧
      (∀ acts s2, exec s1 acts = .ok s2 →
        (c1 ∈ s2.rt.cancelled → c1 ∈ s.rt.cancelled)) ∧
      (∀ acts s2, exec s1 acts = .ok s2 →
        ∃ c s3, s2.p.cancelFunc = some c ∧ c ≠ c1 ∧ s.rt.ctxs ≤ c ∧
          step s2 .Stop = .ok s3 ∧ s3.p = s2.p ∧ s3.threads = s2.threads ∧
          c ∈ s3.rt.cancelled ∧
          (∀ x, x ∈ s3.rt.cancelled ↔ x = c ∨ x ∈ s2.rt.cancelled) ∧
          ((∀ u, Action.lockedSection u ∉ acts) →
            c = s.rt.ctxs ∧ ∀ x ∈ s2.rt.cancelled, x ∈ s.rt.cancelled ∨ x = s.rt.ctxs)) := by
  have hw := exec_wf (New_wf body rt0) hreach
  obtain ⟨hwc, hws⟩ := hw
  have hlt : c1 < s.rt.ctxs := hwc c1 hc1
  have hstep : step s (.lockedSection t) =
      .ok { p := (start_locked s.p s.rt).1, rt := (start_locked s.p s.rt).2,
            threads := s.threads.set t .atDoString } := by
    simp [step, ht]
  have hw1 := step_wf (⟨hwc, hws⟩ : s.wf) hstep
  refine ⟨_, hstep, rfl, by omega, rfl, ?_, rfl, ?_, ?_⟩
  · intro heq
    have := hws s.rt.states (by simpa [start_locked] using heq.symm)
    omega
  · intro acts s2 h2
    have hlost : Lost c1 { p := (start_locked s.p s.rt).1, rt := (start_locked s.p s.rt).2,
                           threads := s.threads.set t .atDoString } := by
      constructor
      · simp only [start_locked]; omega
      · simp only [start_locked, ne_eq, Option.some.injEq]; omega
    exact (exec_lost hlost h2).2
  · intro acts s2 h2
    obtain ⟨c, hc, hle⟩ := exec_stored hw1
      (show ({ p := (start_locked s.p s.rt).1, rt := (start_locked s.p s.rt).2,
               threads := s.threads.set t .atDoString } : Sys).p.cancelFunc
            = some s.rt.ctxs from rfl) h2
    refine ⟨c, { s2 with rt := s2.rt.cancel c }, hc, by omega, hle, ?_, rfl, rfl,
      mem_cancel.mpr (Or.inl rfl), fun x => mem_cancel, ?_⟩
    · simp [step, Stop, hc]
    · intro hno
      obtain ⟨hc2, hm2⟩ := exec_fires_only
        (show ({ p := (start_locked s.p s.rt).1, rt := (start_locked s.p s.rt).2,
                 threads := s.threads.set t .atDoString } : Sys).p.cancelFunc
              = some s.rt.ctxs from rfl) hno h2
      exact ⟨Option.some.inj (hc.symm.trans hc2), hm2⟩

/-- Witness of C10 (amended): a second `Run` while the first run is inside
`DoString`, followed by a `Stop`. -/
theorem restart_loses_old_cancel_witness :
    exec (Sys.New "while true do end" Runtime.empty)
      [.Run, .lockedSection 0, .callDoString 0, .Run]
    = .ok { p := { state := some 0, cancelFunc := some 0, running := true, error := none,
                   body := "while true do end" },
            rt := { states := 1, ctxs := 1, context := [(0, 0)], cancelled := [] },
            threads := [.inDoString 0, .atLock] } ∧
    ∃ s1,
      step { p := { state := some 0, cancelFunc := some 0, running := true, error := none,
                    body := "while true do end" },
             rt := { states := 1, ctxs := 1, context := [(0, 0)], cancelled := [] },
             threads := [.inDoString 0, .atLock] } (.lockedSection 1) = .ok s1 ∧
      s1.p.cancelFunc = some 1 ∧
      (∀ acts s2, exec s1 acts = .ok s2 → (0 ∈ s2.rt.cancelled → 0 ∈ ([] : List Nat))) ∧
      (∀ acts s2, exec s1 acts = .ok s2 →
        ∃ c s3, s2.p.cancelFunc = some c ∧ c ≠ 0 ∧ step s2 .Stop = .ok s3 ∧
          c ∈ s3.rt.cancelled) :=
  ⟨rfl,
   let ⟨s1, h, hc, _, _, _, _, hnever, hstop⟩ :=
     restart_loses_old_cancel "while true do end" Runtime.empty
       [.Run, .lockedSection 0, .callDoString 0, .Run]
       { p := { state := some 0, cancelFunc := some 0, running := true, error := none,
                body := "while true do end" },
         rt := { states := 1, ctxs := 1, context := [(0, 0)], cancelled := [] },
         threads := [.inDoString 0, .atLock] } 1 0 rfl rfl rfl
   ⟨s1, h, hc, hnever, fun acts s2 h2 =>
     let ⟨c, s3, h1, h2a, _, h4, _, _, h7, _⟩ := hstop acts s2 h2
     ⟨c, s3, h1, h2a, h4, h7⟩⟩⟩

end Plugin
